import Mathlib

/-!
# Verification of the prefetch orchestrator (`core/state_prefetcher.go`)

Shallow embedding of the active body of `statePrefetcher.Prefetch`
(`src/core/state_prefetcher.go`, lines 95-133).  The external collaborators
(statedb, EVM, signer, gas metering) are opaque per the design: the embedding
records every externally observable call the orchestrator makes as an `Event`
in a trace, and takes the outcomes of the two fallible external calls
(`TransactionToMessage`, `applyTransaction`) as oracle parameters.
-/

namespace Pioneer

/-- A transaction.  The orchestrator only ever observes a transaction through
`tx.Hash()` and through the opaque `TransactionToMessage` call, so the hash is
the one attribute embedded (as a `Nat` standing for the 256-bit hash). -/
structure Tx where
  hash : Nat
deriving DecidableEq, Repr

/-- Block header fields read by `Prefetch`: `header.Number`, `header.Time`
(fed to `MakeSigner`), `block.GasLimit()` and `header.BaseFee`
(fed to `TransactionToMessage`). -/
structure Header where
  number : Nat
  time : Nat
  gasLimit : Nat
  baseFee : Option Nat
deriving DecidableEq, Repr

/-- A block: header plus its ordered transaction list (`block.Transactions()`). -/
structure Block where
  header : Header
  transactions : List Tx
deriving DecidableEq, Repr

/-- `block.Number()` returns the header number. -/
def Block.number (b : Block) : Nat := b.header.number

/-- `block.GasLimit()` returns the header gas limit. -/
def Block.gasLimit (b : Block) : Nat := b.header.gasLimit

/-- The chain-configuration fields consulted by the prefetcher:
`DAOForkSupport`, `DAOForkBlock` (a nullable big.Int block number), and
`ByzantiumBlock` (used by `IsByzantium`; present in `params.ChainConfig`,
never consulted by the active `Prefetch` body). -/
structure ChainConfig where
  daoForkSupport : Bool
  daoForkBlock : Option Nat
  byzantiumBlock : Option Nat
deriving DecidableEq, Repr

/-- Modelled from the spec: `params.ChainConfig.IsByzantium` (not under
`src/`) — whether the Byzantium fork rule set is active at block `n`,
i.e. a Byzantium transition block is configured and is at most `n`. -/
def ChainConfig.isByzantium (cfg : ChainConfig) (n : Nat) : Bool :=
  match cfg.byzantiumBlock with
  | some b => decide (b ≤ n)
  | none => false

/-- The `statePrefetcher` receiver.  Its `bc` and `engine` fields are passed
only to opaque collaborators (`NewEVMBlockContext`), so only `config` appears
in the embedding. -/
structure StatePrefetcher where
  config : ChainConfig
deriving DecidableEq, Repr

/-- `newStatePrefetcher` initialises a new `statePrefetcher`. -/
def newStatePrefetcher (config : ChainConfig) : StatePrefetcher :=
  { config := config }

/-- Modelled from the spec: the `Message` produced by `TransactionToMessage`
(`core/state_transition.go`, not under `src/`) — the executable intent with a
resolved sender, consumed opaquely by the execution engine. -/
structure Message where
  sender : Nat
deriving DecidableEq, Repr

/-- The externally observable calls the active `Prefetch` body makes, in
program order.  Root events (`statedb.IntermediateRoot`) are part of the
vocabulary because the state view supports them and the spec's root-warming
policy is stated in terms of them. -/
inductive Event where
  | applyDAO : Event
  | initTxFile : Nat → Event
  | setTxContext : Nat → Nat → Event
  | writeHash : Nat → Nat → Event
  | execute : Nat → Nat → Nat → Event
  | delTxFile : Nat → Event
  | reNameTxFile : Nat → Event
  | intermediateRoot : Event
  | finalRoot : Event
deriving DecidableEq, Repr

/-- The DAO hard-fork trigger test of line 103:
`p.config.DAOForkSupport && p.config.DAOForkBlock != nil &&
p.config.DAOForkBlock.Cmp(block.Number()) == 0`. -/
def daoTriggered (cfg : ChainConfig) (number : Nat) : Bool :=
  cfg.daoForkSupport &&
    match cfg.daoForkBlock with
    | some b => b == number
    | none => false

/-- The transaction loop of lines 115-129.  Arguments: the remaining
transactions, the loop index `i`, and the current gas pool balance `gp`.
Oracles: `toMsg` is `TransactionToMessage tx signer header.BaseFee` (the
signer and base fee are fixed for the whole run, so the oracle depends only on
the transaction); `exec` is the outcome of
`applyTransaction msg p.config gp statedb blockNumber blockHash tx usedGas
vmenv` — `none` for an error and `some used` for success consuming `used` gas
from the pool (engine internals are opaque, so the outcome is an oracle of the
loop position and the message).  Returns the emitted event trace and whether
the loop fell through (`true`) or hit an early `return` (`false`). -/
def prefetchLoop (number : Nat) (toMsg : Tx → Option Message)
    (exec : Nat → Message → Option Nat) :
    List Tx → Nat → Nat → List Event × Bool
  | [], _, _ => ([], true)
  | tx :: rest, i, gp =>
    match toMsg tx with
    | none => ([Event.delTxFile number], false)
    | some msg =>
      match exec i msg with
      | none =>
        ([Event.setTxContext tx.hash i, Event.writeHash number tx.hash,
          Event.execute i tx.hash gp, Event.delTxFile number], false)
      | some used =>
        (Event.setTxContext tx.hash i :: Event.writeHash number tx.hash ::
          Event.execute i tx.hash gp :: Event.writeHash number tx.hash ::
            (prefetchLoop number toMsg exec rest (i + 1) (gp - used)).1,
         (prefetchLoop number toMsg exec rest (i + 1) (gp - used)).2)

/-- Lines 102-105: the one-time DAO hard-fork mutation
(`misc.ApplyDAOHardFork(statedb)`), applied when `daoTriggered`. -/
def daoPart (cfg : ChainConfig) (b : Block) : List Event :=
  if daoTriggered cfg b.number then [Event.applyDAO] else []

/-- Lines 111-113: `types.InitTxFile(header.Number)` when the block has
transactions. -/
def initPart (b : Block) : List Event :=
  if b.transactions.isEmpty then [] else [Event.initTxFile b.header.number]

/-- Lines 130-132: `types.ReNameTxFile(header.Number)`, reached only when the
loop fell through (`ok = true`) and the block has transactions. -/
def finPart (b : Block) (ok : Bool) : List Event :=
  if ok && !b.transactions.isEmpty then [Event.reNameTxFile b.header.number]
  else []

/-- The active body of `statePrefetcher.Prefetch` (lines 95-133), as the trace
of external calls it performs plus its terminal state (`true` = Completed,
`false` = Aborted, in the spec's state-machine terms; the Go function itself
returns nothing).  The `interrupt` argument embeds the `*atomic.Bool`
parameter as `none` (nil) or `some f` where `f k` is the value an atomic load
would observe at the `k`-th poll; the gas pool is created by
`new(GasPool).AddGas(block.GasLimit())` and threaded through the loop. -/
def Prefetch (p : StatePrefetcher) (block : Block)
    (toMsg : Tx → Option Message) (exec : Nat → Message → Option Nat)
    (interrupt : Option (Nat → Bool)) : List Event × Bool :=
  (daoPart p.config block ++ initPart block ++
      (prefetchLoop block.header.number toMsg exec
        block.transactions 0 block.gasLimit).1 ++
      finPart block
        (prefetchLoop block.header.number toMsg exec
          block.transactions 0 block.gasLimit).2,
   (prefetchLoop block.header.number toMsg exec
      block.transactions 0 block.gasLimit).2)

/-- The events the loop body can emit (used to show the loop emits no
begin-run, end-run, DAO or root events). -/
def loopEvent : Event → Bool
  | Event.setTxContext _ _ => true
  | Event.writeHash _ _ => true
  | Event.execute _ _ _ => true
  | Event.delTxFile _ => true
  | _ => false

/-- An indexed event (context binding or engine presentation) has index below
`b`; non-indexed events satisfy the bound vacuously. -/
def idxBelow (b : Nat) : Event → Bool
  | Event.setTxContext _ i => decide (i < b)
  | Event.execute i _ _ => decide (i < b)
  | _ => true

/-- Project a context-binding event to its (hash, index) payload. -/
def ctxOf : Event → Option (Nat × Nat)
  | Event.setTxContext h i => some (h, i)
  | _ => none

/-- The (hash, index) pairs of the `SetTxContext` calls of a trace, in trace
order. -/
def ctxEvents (tr : List Event) : List (Nat × Nat) :=
  tr.filterMap ctxOf

/-- The (hash, index) pairs a faithful replay binds for a transaction list,
starting at index `i`. -/
def ctxList : Nat → List Tx → List (Nat × Nat)
  | _, [] => []
  | i, tx :: rest => (tx.hash, i) :: ctxList (i + 1) rest

/-- Step `j` of the loop over `txs` (with `txs.head` at loop index `i0`)
succeeds: the transaction exists, sender resolution produces a message, and
the engine executes it without error. -/
def stepOk (toMsg : Tx → Option Message) (exec : Nat → Message → Option Nat)
    (i0 : Nat) (txs : List Tx) (j : Nat) : Bool :=
  match txs.get? j with
  | none => false
  | some tx =>
    match toMsg tx with
    | none => false
    | some m => (exec (i0 + j) m).isSome

/-- Sender resolution fails at position `j`: the transaction exists but
`TransactionToMessage` returns an error. -/
def resolveFailAt (toMsg : Tx → Option Message) (txs : List Tx) (j : Nat) :
    Bool :=
  match txs.get? j with
  | none => false
  | some tx => (toMsg tx).isNone

/-- The gas the engine reports consumed at step `j` (0 when the step never
executes or fails before consuming). -/
def usedAt (toMsg : Tx → Option Message) (exec : Nat → Message → Option Nat)
    (i0 : Nat) (txs : List Tx) (j : Nat) : Nat :=
  match txs.get? j with
  | none => 0
  | some tx =>
    match toMsg tx with
    | none => 0
    | some m => (exec (i0 + j) m).getD 0

/-- Total gas consumed by the first `j` steps. -/
def sumUsed (toMsg : Tx → Option Message) (exec : Nat → Message → Option Nat)
    (i0 : Nat) (txs : List Tx) : Nat → Nat
  | 0 => 0
  | j + 1 =>
    sumUsed toMsg exec i0 txs j + usedAt toMsg exec i0 txs j

/-! Concrete inputs used to instantiate the theorems below. -/

/-- A sample transaction. -/
def txA : Tx := ⟨41⟩

/-- A second sample transaction. -/
def txB : Tx := ⟨42⟩

/-- A configuration with the DAO fork disabled. -/
def cfgW : ChainConfig := ⟨false, none, some 0⟩

/-- A prefetcher over `cfgW`. -/
def pW : StatePrefetcher := newStatePrefetcher cfgW

/-- A configuration whose DAO fork triggers at block 9. -/
def cfgDao : ChainConfig := ⟨true, some 9, some 0⟩

/-- A prefetcher over `cfgDao`. -/
def pDao : StatePrefetcher := newStatePrefetcher cfgDao

/-- A two-transaction block, number 9, gas limit 100. -/
def blkW : Block := ⟨⟨9, 0, 100, none⟩, [txA, txB]⟩

/-- A one-transaction block, number 9, gas limit 100. -/
def blk1 : Block := ⟨⟨9, 0, 100, none⟩, [txA]⟩

/-- A sender-resolution oracle that always succeeds. -/
def toMsgW : Tx → Option Message := fun tx => some ⟨tx.hash⟩

/-- A sender-resolution oracle failing exactly on `txB`. -/
def toMsgFailW : Tx → Option Message :=
  fun tx => if tx.hash == 42 then none else some ⟨tx.hash⟩

/-- An execution oracle that always succeeds consuming 3 gas. -/
def execOkW : Nat → Message → Option Nat := fun _ _ => some 3

/-- An execution oracle failing exactly at loop position 1. -/
def execFailW : Nat → Message → Option Nat :=
  fun i _ => if i == 1 then none else some 3

section LoopLemmas

variable (number : Nat) (toMsg : Tx → Option Message)
variable (exec : Nat → Message → Option Nat)

lemma prefetchLoop_nil (i0 gp : Nat) :
    prefetchLoop number toMsg exec [] i0 gp = ([], true) := rfl

lemma prefetchLoop_resolveFail (tx : Tx) (rest : List Tx) (i0 gp : Nat)
    (hm : toMsg tx = none) :
    prefetchLoop number toMsg exec (tx :: rest) i0 gp =
      ([Event.delTxFile number], false) := by
  unfold prefetchLoop
  rw [hm]

lemma prefetchLoop_execFail (tx : Tx) (rest : List Tx) (i0 gp : Nat)
    (m : Message) (hm : toMsg tx = some m) (he : exec i0 m = none) :
    prefetchLoop number toMsg exec (tx :: rest) i0 gp =
      ([Event.setTxContext tx.hash i0, Event.writeHash number tx.hash,
        Event.execute i0 tx.hash gp, Event.delTxFile number], false) := by
  unfold prefetchLoop
  rw [hm]
  dsimp only
  rw [he]

lemma prefetchLoop_execOk (tx : Tx) (rest : List Tx) (i0 gp : Nat)
    (m : Message) (u : Nat) (hm : toMsg tx = some m) (he : exec i0 m = some u) :
    prefetchLoop number toMsg exec (tx :: rest) i0 gp =
      (Event.setTxContext tx.hash i0 :: Event.writeHash number tx.hash ::
        Event.execute i0 tx.hash gp :: Event.writeHash number tx.hash ::
          (prefetchLoop number toMsg exec rest (i0 + 1) (gp - u)).1,
       (prefetchLoop number toMsg exec rest (i0 + 1) (gp - u)).2) := by
  conv =>
    lhs
    unfold prefetchLoop
  rw [hm]
  dsimp only
  rw [he]

lemma stepOk_zero (tx : Tx) (rest : List Tx) (i0 : Nat)
    (h : stepOk toMsg exec i0 (tx :: rest) 0 = true) :
    ∃ m u, toMsg tx = some m ∧ exec i0 m = some u := by
  unfold stepOk at h
  simp only [List.get?_cons_zero] at h
  cases hm : toMsg tx with
  | none => rw [hm] at h; simp at h
  | some m =>
    rw [hm] at h
    dsimp only at h
    cases he : exec (i0 + 0) m with
    | none => rw [he] at h; simp at h
    | some u => exact ⟨m, u, rfl, by simpa using he⟩

lemma stepOk_succ (tx : Tx) (rest : List Tx) (i0 j : Nat) :
    stepOk toMsg exec i0 (tx :: rest) (j + 1) =
      stepOk toMsg exec (i0 + 1) rest j := by
  unfold stepOk
  simp only [List.get?_cons_succ, Nat.add_succ, Nat.succ_add]

lemma resolveFailAt_succ (tx : Tx) (rest : List Tx) (j : Nat) :
    resolveFailAt toMsg (tx :: rest) (j + 1) = resolveFailAt toMsg rest j := by
  unfold resolveFailAt
  simp only [List.get?_cons_succ]

lemma usedAt_succ (tx : Tx) (rest : List Tx) (i0 j : Nat) :
    usedAt toMsg exec i0 (tx :: rest) (j + 1) =
      usedAt toMsg exec (i0 + 1) rest j := by
  unfold usedAt
  simp only [List.get?_cons_succ, Nat.add_succ, Nat.succ_add]

lemma sumUsed_cons (tx : Tx) (rest : List Tx) (i0 : Nat) :
    ∀ j, sumUsed toMsg exec i0 (tx :: rest) (j + 1) =
      usedAt toMsg exec i0 (tx :: rest) 0 +
        sumUsed toMsg exec (i0 + 1) rest j := by
  intro j
  induction j with
  | zero => simp [sumUsed]
  | succ j ih =>
    show sumUsed toMsg exec i0 (tx :: rest) (j + 1) +
        usedAt toMsg exec i0 (tx :: rest) (j + 1) = _
    rw [ih, usedAt_succ]
    show _ = usedAt toMsg exec i0 (tx :: rest) 0 +
      (sumUsed toMsg exec (i0 + 1) rest j + usedAt toMsg exec (i0 + 1) rest j)
    omega

lemma loop_events_mem :
    ∀ (txs : List Tx) (i0 gp : Nat) (e : Event),
      e ∈ (prefetchLoop number toMsg exec txs i0 gp).1 → loopEvent e = true := by
  intro txs
  induction txs with
  | nil => intro i0 gp e h; simp [prefetchLoop] at h
  | cons tx rest ih =>
    intro i0 gp e h
    cases hm : toMsg tx with
    | none =>
      rw [prefetchLoop_resolveFail number toMsg exec tx rest i0 gp hm] at h
      simp only [List.mem_singleton] at h
      subst h; rfl
    | some m =>
      cases he : exec i0 m with
      | none =>
        rw [prefetchLoop_execFail number toMsg exec tx rest i0 gp m hm he] at h
        simp only [List.mem_cons, List.not_mem_nil, or_false] at h
        rcases h with h | h | h | h <;> (subst h; rfl)
      | some u =>
        rw [prefetchLoop_execOk number toMsg exec tx rest i0 gp m u hm he] at h
        simp only [List.mem_cons] at h
        rcases h with h | h | h | h | h
        · subst h; rfl
        · subst h; rfl
        · subst h; rfl
        · subst h; rfl
        · exact ih _ _ _ h

lemma loop_complete :
    ∀ (txs : List Tx) (i0 gp : Nat),
      (∀ j, j < txs.length → stepOk toMsg exec i0 txs j = true) →
      (prefetchLoop number toMsg exec txs i0 gp).2 = true := by
  intro txs
  induction txs with
  | nil => intro i0 gp _; rfl
  | cons tx rest ih =>
    intro i0 gp hall
    obtain ⟨m, u, hm, hu⟩ :=
      stepOk_zero toMsg exec tx rest i0 (hall 0 (by simp))
    rw [prefetchLoop_execOk number toMsg exec tx rest i0 gp m u hm hu]
    exact ih (i0 + 1) (gp - u) fun j hj => by
      have := hall (j + 1) (by simpa using Nat.succ_lt_succ hj)
      rwa [stepOk_succ] at this

lemma usedAt_zero (tx : Tx) (rest : List Tx) (i0 : Nat) (m : Message) (u : Nat)
    (hm : toMsg tx = some m) (hu : exec i0 m = some u) :
    usedAt toMsg exec i0 (tx :: rest) 0 = u := by
  unfold usedAt
  simp only [List.get?_cons_zero]
  rw [hm]
  dsimp only
  rw [Nat.add_zero, hu]
  rfl

lemma loop_ctx :
    ∀ (txs : List Tx) (i0 gp : Nat),
      (prefetchLoop number toMsg exec txs i0 gp).2 = true →
      ctxEvents (prefetchLoop number toMsg exec txs i0 gp).1 = ctxList i0 txs := by
  intro txs
  induction txs with
  | nil => intro i0 gp _; rfl
  | cons tx rest ih =>
    intro i0 gp hok
    cases hm : toMsg tx with
    | none =>
      rw [prefetchLoop_resolveFail number toMsg exec tx rest i0 gp hm] at hok
      simp at hok
    | some m =>
      cases he : exec i0 m with
      | none =>
        rw [prefetchLoop_execFail number toMsg exec tx rest i0 gp m hm he] at hok
        simp at hok
      | some u =>
        rw [prefetchLoop_execOk number toMsg exec tx rest i0 gp m u hm he] at hok
        rw [prefetchLoop_execOk number toMsg exec tx rest i0 gp m u hm he]
        dsimp only at hok ⊢
        simp only [ctxEvents, ctxList, List.filterMap_cons, ctxOf]
        exact congrArg _ (ih (i0 + 1) (gp - u) hok)

lemma loop_resolveFail :
    ∀ (k : Nat) (txs : List Tx) (i0 gp : Nat),
      (∀ j, j < k → stepOk toMsg exec i0 txs j = true) →
      resolveFailAt toMsg txs k = true →
      ∃ A, (prefetchLoop number toMsg exec txs i0 gp).1 =
          A ++ [Event.delTxFile number] ∧
        (∀ e ∈ A, idxBelow (i0 + k) e = true) ∧
        (prefetchLoop number toMsg exec txs i0 gp).2 = false := by
  intro k
  induction k with
  | zero =>
    intro txs i0 gp _ hfail
    cases txs with
    | nil => simp [resolveFailAt] at hfail
    | cons tx rest =>
      have hm : toMsg tx = none := by
        unfold resolveFailAt at hfail
        simp only [List.get?_cons_zero] at hfail
        exact Option.isNone_iff_eq_none.mp hfail
      rw [prefetchLoop_resolveFail number toMsg exec tx rest i0 gp hm]
      exact ⟨[], rfl, by intro e he; simp at he, rfl⟩
  | succ k ih =>
    intro txs i0 gp hall hfail
    cases txs with
    | nil => simp [resolveFailAt] at hfail
    | cons tx rest =>
      obtain ⟨m, u, hm, hu⟩ :=
        stepOk_zero toMsg exec tx rest i0 (hall 0 (Nat.succ_pos k))
      rw [resolveFailAt_succ] at hfail
      have hall' : ∀ j, j < k → stepOk toMsg exec (i0 + 1) rest j = true := by
        intro j hj
        have := hall (j + 1) (Nat.succ_lt_succ hj)
        rwa [stepOk_succ] at this
      obtain ⟨A, hA, hbound, hok⟩ := ih rest (i0 + 1) (gp - u) hall' hfail
      rw [prefetchLoop_execOk number toMsg exec tx rest i0 gp m u hm hu]
      refine ⟨Event.setTxContext tx.hash i0 :: Event.writeHash number tx.hash ::
        Event.execute i0 tx.hash gp :: Event.writeHash number tx.hash :: A,
        ?_, ?_, ?_⟩
      · dsimp only
        rw [hA]
        simp
      · intro e he
        simp only [List.mem_cons] at he
        rcases he with h | h | h | h | h
        · subst h; simp [idxBelow]
        · subst h; rfl
        · subst h; simp [idxBelow]
        · subst h; rfl
        · have := hbound e h
          rwa [show i0 + 1 + k = i0 + (k + 1) by omega] at this
      · dsimp only
        exact hok

lemma loop_execFail :
    ∀ (k : Nat) (txs : List Tx) (i0 gp : Nat) (tx : Tx) (m : Message),
      (∀ j, j < k → stepOk toMsg exec i0 txs j = true) →
      txs.get? k = some tx →
      toMsg tx = some m →
      exec (i0 + k) m = none →
      ∃ A, (prefetchLoop number toMsg exec txs i0 gp).1 =
          A ++ [Event.setTxContext tx.hash (i0 + k),
                Event.writeHash number tx.hash,
                Event.execute (i0 + k) tx.hash
                  (gp - sumUsed toMsg exec i0 txs k),
                Event.delTxFile number] ∧
        (∀ e ∈ A, idxBelow (i0 + k) e = true) ∧
        (prefetchLoop number toMsg exec txs i0 gp).2 = false := by
  intro k
  induction k with
  | zero =>
    intro txs i0 gp tx m _ hget hm he
    cases txs with
    | nil => simp at hget
    | cons tx' rest =>
      simp only [List.get?_cons_zero, Option.some_inj] at hget
      subst hget
      rw [Nat.add_zero] at he
      rw [prefetchLoop_execFail number toMsg exec tx' rest i0 gp m hm he]
      refine ⟨[], ?_, by intro e h; simp at h, rfl⟩
      simp [sumUsed]
  | succ k ih =>
    intro txs i0 gp tx m hall hget hm he
    cases txs with
    | nil => simp at hget
    | cons tx' rest =>
      obtain ⟨m', u, hm', hu'⟩ :=
        stepOk_zero toMsg exec tx' rest i0 (hall 0 (Nat.succ_pos k))
      simp only [List.get?_cons_succ] at hget
      have hall' : ∀ j, j < k → stepOk toMsg exec (i0 + 1) rest j = true := by
        intro j hj
        have := hall (j + 1) (Nat.succ_lt_succ hj)
        rwa [stepOk_succ] at this
      have he' : exec (i0 + 1 + k) m = none := by
        rwa [show i0 + 1 + k = i0 + (k + 1) by omega]
      obtain ⟨A, hA, hbound, hok⟩ :=
        ih rest (i0 + 1) (gp - u) tx m hall' hget hm he'
      rw [prefetchLoop_execOk number toMsg exec tx' rest i0 gp m' u hm' hu']
      refine ⟨Event.setTxContext tx'.hash i0 :: Event.writeHash number tx'.hash ::
        Event.execute i0 tx'.hash gp :: Event.writeHash number tx'.hash :: A,
        ?_, ?_, ?_⟩
      · dsimp only
        rw [hA]
        have hidx : i0 + 1 + k = i0 + (k + 1) := by omega
        have hpool : gp - u - sumUsed toMsg exec (i0 + 1) rest k =
            gp - sumUsed toMsg exec i0 (tx' :: rest) (k + 1) := by
          rw [sumUsed_cons, usedAt_zero toMsg exec tx' rest i0 m' u hm' hu',
            Nat.sub_sub]
        rw [hidx, hpool]
        simp
      · intro e he
        simp only [List.mem_cons] at he
        rcases he with h | h | h | h | h
        · subst h; simp [idxBelow]
        · subst h; rfl
        · subst h; simp [idxBelow]
        · subst h; rfl
        · have := hbound e h
          rwa [show i0 + 1 + k = i0 + (k + 1) by omega] at this
      · dsimp only
        exact hok

lemma loop_succChunk :
    ∀ (k : Nat) (txs : List Tx) (i0 gp : Nat) (tx : Tx) (m : Message) (u : Nat),
      (∀ j, j < k → stepOk toMsg exec i0 txs j = true) →
      txs.get? k = some tx →
      toMsg tx = some m →
      exec (i0 + k) m = some u →
      ∃ A B, (prefetchLoop number toMsg exec txs i0 gp).1 =
          A ++ Event.setTxContext tx.hash (i0 + k) ::
            Event.writeHash number tx.hash ::
            Event.execute (i0 + k) tx.hash
              (gp - sumUsed toMsg exec i0 txs k) ::
            Event.writeHash number tx.hash :: B ∧
        (∀ e ∈ A, idxBelow (i0 + k) e = true) := by
  intro k
  induction k with
  | zero =>
    intro txs i0 gp tx m u _ hget hm hu
    cases txs with
    | nil => simp at hget
    | cons tx' rest =>
      simp only [List.get?_cons_zero, Option.some_inj] at hget
      subst hget
      rw [Nat.add_zero] at hu
      rw [prefetchLoop_execOk number toMsg exec tx' rest i0 gp m u hm hu]
      refine ⟨[], (prefetchLoop number toMsg exec rest (i0 + 1) (gp - u)).1,
        ?_, by intro e h; simp at h⟩
      simp [sumUsed]
  | succ k ih =>
    intro txs i0 gp tx m u hall hget hm hu
    cases txs with
    | nil => simp at hget
    | cons tx' rest =>
      obtain ⟨m', u', hm', hu'⟩ :=
        stepOk_zero toMsg exec tx' rest i0 (hall 0 (Nat.succ_pos k))
      simp only [List.get?_cons_succ] at hget
      have hall' : ∀ j, j < k → stepOk toMsg exec (i0 + 1) rest j = true := by
        intro j hj
        have := hall (j + 1) (Nat.succ_lt_succ hj)
        rwa [stepOk_succ] at this
      have hu2 : exec (i0 + 1 + k) m = some u := by
        rwa [show i0 + 1 + k = i0 + (k + 1) by omega]
      obtain ⟨A, B, hA, hbound⟩ :=
        ih rest (i0 + 1) (gp - u') tx m u hall' hget hm hu2
      rw [prefetchLoop_execOk number toMsg exec tx' rest i0 gp m' u' hm' hu']
      refine ⟨Event.setTxContext tx'.hash i0 :: Event.writeHash number tx'.hash ::
        Event.execute i0 tx'.hash gp :: Event.writeHash number tx'.hash :: A,
        B, ?_, ?_⟩
      · dsimp only
        rw [hA]
        have hidx : i0 + 1 + k = i0 + (k + 1) := by omega
        have hpool : gp - u' - sumUsed toMsg exec (i0 + 1) rest k =
            gp - sumUsed toMsg exec i0 (tx' :: rest) (k + 1) := by
          rw [sumUsed_cons, usedAt_zero toMsg exec tx' rest i0 m' u' hm' hu',
            Nat.sub_sub]
        rw [hidx, hpool]
        simp
      · intro e he
        simp only [List.mem_cons] at he
        rcases he with h | h | h | h | h
        · subst h; simp [idxBelow]
        · subst h; rfl
        · subst h; simp [idxBelow]
        · subst h; rfl
        · have := hbound e h
          rwa [show i0 + 1 + k = i0 + (k + 1) by omega] at this

lemma loop_pool :
    ∀ (txs : List Tx) (i0 gp i h g : Nat),
      Event.execute i h g ∈ (prefetchLoop number toMsg exec txs i0 gp).1 →
      i0 ≤ i ∧ g = gp - sumUsed toMsg exec i0 txs (i - i0) := by
  intro txs
  induction txs with
  | nil => intro i0 gp i h g hmem; simp [prefetchLoop] at hmem
  | cons tx rest ih =>
    intro i0 gp i h g hmem
    cases hm : toMsg tx with
    | none =>
      rw [prefetchLoop_resolveFail number toMsg exec tx rest i0 gp hm] at hmem
      simp at hmem
    | some m =>
      cases he : exec i0 m with
      | none =>
        rw [prefetchLoop_execFail number toMsg exec tx rest i0 gp m hm he]
          at hmem
        simp only [List.mem_cons, List.not_mem_nil, or_false] at hmem
        rcases hmem with h1 | h1 | h1 | h1
        · simp at h1
        · simp at h1
        · simp only [Event.execute.injEq] at h1
          obtain ⟨h1a, h1b, h1c⟩ := h1
          subst h1a; subst h1c
          exact ⟨Nat.le_refl _, by simp [sumUsed]⟩
        · simp at h1
      | some u =>
        rw [prefetchLoop_execOk number toMsg exec tx rest i0 gp m u hm he]
          at hmem
        simp only [List.mem_cons] at hmem
        rcases hmem with h1 | h1 | h1 | h1 | h1
        · simp at h1
        · simp at h1
        · simp only [Event.execute.injEq] at h1
          obtain ⟨h1a, h1b, h1c⟩ := h1
          subst h1a; subst h1c
          exact ⟨Nat.le_refl _, by simp [sumUsed]⟩
        · simp at h1
        · obtain ⟨hle, hg⟩ := ih (i0 + 1) (gp - u) i h g h1
          refine ⟨by omega, ?_⟩
          have hi : i - i0 = (i - (i0 + 1)) + 1 := by omega
          rw [hi, sumUsed_cons, usedAt_zero toMsg exec tx rest i0 m u hm he]
          omega

lemma loop_del_count :
    ∀ (txs : List Tx) (i0 gp m : Nat),
      List.count (Event.delTxFile m)
          (prefetchLoop number toMsg exec txs i0 gp).1 =
        if (prefetchLoop number toMsg exec txs i0 gp).2 = false ∧ m = number
        then 1 else 0 := by
  intro txs
  induction txs with
  | nil => intro i0 gp m; simp [prefetchLoop]
  | cons tx rest ih =>
    intro i0 gp m
    cases hm : toMsg tx with
    | none =>
      rw [prefetchLoop_resolveFail number toMsg exec tx rest i0 gp hm]
      by_cases hmn : m = number
      · subst hmn; simp
      · simp [List.count_singleton', hmn, Ne.symm hmn]
    | some msg =>
      cases he : exec i0 msg with
      | none =>
        rw [prefetchLoop_execFail number toMsg exec tx rest i0 gp msg hm he]
        by_cases hmn : m = number
        · subst hmn; simp [List.count_cons]
        · simp [List.count_cons, hmn, Ne.symm hmn]
      | some u =>
        rw [prefetchLoop_execOk number toMsg exec tx rest i0 gp msg u hm he]
        dsimp only
        simp only [List.count_cons]
        rw [ih (i0 + 1) (gp - u) m]
        simp

lemma loop_not_mem (txs : List Tx) (i0 gp : Nat) (e : Event)
    (he : loopEvent e = false) :
    e ∉ (prefetchLoop number toMsg exec txs i0 gp).1 := by
  intro hmem
  have := loop_events_mem number toMsg exec txs i0 gp e hmem
  rw [he] at this
  cases this

end LoopLemmas

section PrefetchLemmas

lemma Prefetch_fst (p : StatePrefetcher) (block : Block)
    (toMsg : Tx → Option Message) (exec : Nat → Message → Option Nat)
    (interrupt : Option (Nat → Bool)) :
    (Prefetch p block toMsg exec interrupt).1 =
      daoPart p.config block ++ initPart block ++
        (prefetchLoop block.header.number toMsg exec
          block.transactions 0 block.gasLimit).1 ++
        finPart block
          (prefetchLoop block.header.number toMsg exec
            block.transactions 0 block.gasLimit).2 := rfl

lemma Prefetch_snd (p : StatePrefetcher) (block : Block)
    (toMsg : Tx → Option Message) (exec : Nat → Message → Option Nat)
    (interrupt : Option (Nat → Bool)) :
    (Prefetch p block toMsg exec interrupt).2 =
      (prefetchLoop block.header.number toMsg exec
        block.transactions 0 block.gasLimit).2 := rfl

lemma daoPart_count_ne (cfg : ChainConfig) (b : Block) (e : Event)
    (h : e ≠ Event.applyDAO) : List.count e (daoPart cfg b) = 0 := by
  unfold daoPart
  split
  · simp [List.count_cons, Ne.symm h]
  · rfl

lemma initPart_count_ne (b : Block) (e : Event)
    (h : ∀ m, e ≠ Event.initTxFile m) : List.count e (initPart b) = 0 := by
  unfold initPart
  split
  · rfl
  · simp [List.count_cons, Ne.symm (h b.header.number)]

lemma finPart_count_ne (b : Block) (ok : Bool) (e : Event)
    (h : ∀ m, e ≠ Event.reNameTxFile m) : List.count e (finPart b ok) = 0 := by
  unfold finPart
  split
  · simp [List.count_cons, Ne.symm (h b.header.number)]
  · rfl

lemma finPart_false (b : Block) : finPart b false = [] := rfl

lemma Prefetch_count_zero (p : StatePrefetcher) (block : Block)
    (toMsg : Tx → Option Message) (exec : Nat → Message → Option Nat)
    (interrupt : Option (Nat → Bool)) (e : Event)
    (h1 : loopEvent e = false) (h2 : e ≠ Event.applyDAO)
    (h3 : ∀ m, e ≠ Event.initTxFile m)
    (h4 : ∀ m, e ≠ Event.reNameTxFile m) :
    List.count e (Prefetch p block toMsg exec interrupt).1 = 0 := by
  rw [Prefetch_fst]
  simp only [List.count_append]
  rw [daoPart_count_ne _ _ _ h2, initPart_count_ne _ _ h3,
    finPart_count_ne _ _ _ h4,
    List.count_eq_zero.mpr
      (loop_not_mem block.header.number toMsg exec
        block.transactions 0 block.gasLimit e h1)]

end PrefetchLemmas

lemma ctxEvents_append (l1 l2 : List Event) :
    ctxEvents (l1 ++ l2) = ctxEvents l1 ++ ctxEvents l2 := by
  simp [ctxEvents]

lemma ctxEvents_daoPart (cfg : ChainConfig) (b : Block) :
    ctxEvents (daoPart cfg b) = [] := by
  unfold daoPart
  split <;> rfl

lemma ctxEvents_initPart (b : Block) : ctxEvents (initPart b) = [] := by
  unfold initPart
  split <;> rfl

lemma ctxEvents_finPart (b : Block) (ok : Bool) :
    ctxEvents (finPart b ok) = [] := by
  unfold finPart
  split <;> rfl

lemma daoPart_mem (cfg : ChainConfig) (b : Block) (e : Event)
    (h : e ∈ daoPart cfg b) : e = Event.applyDAO := by
  revert h
  unfold daoPart
  split <;> simp

lemma initPart_mem (b : Block) (e : Event) (h : e ∈ initPart b) :
    e = Event.initTxFile b.header.number := by
  revert h
  unfold initPart
  split <;> simp

lemma finPart_mem (b : Block) (ok : Bool) (e : Event) (h : e ∈ finPart b ok) :
    e = Event.reNameTxFile b.header.number := by
  revert h
  unfold finPart
  split <;> simp

lemma idxBelow_mono (b b' : Nat) (e : Event) (hb : b ≤ b')
    (h : idxBelow b e = true) : idxBelow b' e = true := by
  cases e <;> simp only [idxBelow, decide_eq_true_eq] at h ⊢ <;> omega

lemma getLast_concat (l : List Event) (a : Event) :
    (l ++ [a]).getLast? = some a := by
  rw [List.getLast?_append_cons]
  rfl

/-- C1: the claim says a cancellation signal set before transaction `k` keeps
transactions `k..n` away from the Execution Engine.  The active body never
consults the signal: with the signal constantly `true` from before the run,
the single transaction of `blk1` is still context-bound, presented to the
engine, and the run completes normally. -/
theorem prefetch_executes_despite_set_cancellation :
    Prefetch pW blk1 toMsgW execOkW (some (fun _ => true)) =
      ([Event.initTxFile 9, Event.setTxContext 41 0, Event.writeHash 9 41,
        Event.execute 0 41 100, Event.writeHash 9 41, Event.reNameTxFile 9],
       true) := by decide

/-- C2: the claim says pre-Byzantium runs compute an intermediate root after
every successful transaction and Byzantium runs compute exactly one final
root.  The active body attempts no state-root computation on any path, for
any configuration (Byzantium or not), any block, and any oracle outcome. -/
theorem prefetch_performs_no_root_computation (p : StatePrefetcher)
    (block : Block) (toMsg : Tx → Option Message)
    (exec : Nat → Message → Option Nat) (interrupt : Option (Nat → Bool)) :
    List.count Event.intermediateRoot
        (Prefetch p block toMsg exec interrupt).1 = 0 ∧
    List.count Event.finalRoot (Prefetch p block toMsg exec interrupt).1 = 0 :=
  ⟨Prefetch_count_zero p block toMsg exec interrupt Event.intermediateRoot rfl
      (fun h => Event.noConfusion h) (fun _ h => Event.noConfusion h)
      (fun _ h => Event.noConfusion h),
   Prefetch_count_zero p block toMsg exec interrupt Event.finalRoot rfl
      (fun h => Event.noConfusion h) (fun _ h => Event.noConfusion h)
      (fun _ h => Event.noConfusion h)⟩

/-- C3: the DAO hard-fork mutation is applied to the state view exactly once
if and only if DAO fork support is enabled, a DAO fork block is configured,
and it equals the block's number; when applied, it is the very first action
of the run, before any transaction processing. -/
theorem prefetch_dao_mutation_iff_configured_trigger (p : StatePrefetcher)
    (block : Block) (toMsg : Tx → Option Message)
    (exec : Nat → Message → Option Nat) (interrupt : Option (Nat → Bool)) :
    List.count Event.applyDAO (Prefetch p block toMsg exec interrupt).1 =
      (if daoTriggered p.config block.number then 1 else 0) ∧
    (daoTriggered p.config block.number = true →
      (Prefetch p block toMsg exec interrupt).1.head? =
        some Event.applyDAO) := by
  constructor
  · rw [Prefetch_fst]
    simp only [List.count_append]
    rw [initPart_count_ne _ _ (fun _ h => Event.noConfusion h),
      finPart_count_ne _ _ _ (fun _ h => Event.noConfusion h),
      List.count_eq_zero.mpr
        (loop_not_mem block.header.number toMsg exec
          block.transactions 0 block.gasLimit Event.applyDAO rfl)]
    by_cases htrig : daoTriggered p.config block.number
    · simp [daoPart, htrig]
    · simp [daoPart, htrig]
  · intro htrig
    rw [Prefetch_fst]
    simp [daoPart, htrig]

/-- Witness for C3 at a block whose number equals the configured DAO fork
block: the trigger fires and the DAO mutation heads the trace. -/
theorem prefetch_dao_mutation_witness :
    daoTriggered pDao.config blkW.number = true ∧
    (Prefetch pDao blkW toMsgW execOkW none).1.head? = some Event.applyDAO :=
  ⟨by decide,
   (prefetch_dao_mutation_iff_configured_trigger pDao blkW toMsgW execOkW
      none).2 (by decide)⟩

/-- C6: on a run that is not aborted, the per-transaction contexts bound on
the state view are exactly `(hash of ti, i)` for the block's transactions in
block order, with no skips or reorderings. -/
theorem prefetch_binds_contexts_in_block_order (p : StatePrefetcher)
    (block : Block) (toMsg : Tx → Option Message)
    (exec : Nat → Message → Option Nat) (interrupt : Option (Nat → Bool))
    (hok : (Prefetch p block toMsg exec interrupt).2 = true) :
    ctxEvents (Prefetch p block toMsg exec interrupt).1 =
      ctxList 0 block.transactions := by
  have hok' : (prefetchLoop block.header.number toMsg exec
      block.transactions 0 block.gasLimit).2 = true := hok
  rw [Prefetch_fst, ctxEvents_append, ctxEvents_append, ctxEvents_append,
    ctxEvents_daoPart, ctxEvents_initPart, ctxEvents_finPart,
    loop_ctx block.header.number toMsg exec block.transactions 0
      block.gasLimit hok']
  simp

/-- Witness for C6 on a completing two-transaction run. -/
theorem prefetch_binds_contexts_witness :
    (Prefetch pW blkW toMsgW execOkW none).2 = true ∧
    ctxEvents (Prefetch pW blkW toMsgW execOkW none).1 =
      ctxList 0 blkW.transactions :=
  ⟨by decide,
   prefetch_binds_contexts_in_block_order pW blkW toMsgW execOkW none
     (by decide)⟩

/-- C8: every presentation of a transaction to the Execution Engine hands it
the run's single gas pool, created at the block header's gas limit and
depleted by exactly the gas the engine consumed on the preceding
transactions of the same run. -/
theorem prefetch_single_shared_gas_pool (p : StatePrefetcher) (block : Block)
    (toMsg : Tx → Option Message) (exec : Nat → Message → Option Nat)
    (interrupt : Option (Nat → Bool)) (i h g : Nat)
    (hmem : Event.execute i h g ∈ (Prefetch p block toMsg exec interrupt).1) :
    g = block.header.gasLimit - sumUsed toMsg exec 0 block.transactions i := by
  rw [Prefetch_fst] at hmem
  simp only [List.mem_append] at hmem
  rcases hmem with ((hd | hi) | hl) | hf
  · exfalso; revert hd; unfold daoPart; split <;> simp
  · exfalso; revert hi; unfold initPart; split <;> simp
  · obtain ⟨-, hg⟩ :=
      loop_pool block.header.number toMsg exec block.transactions 0
        block.gasLimit i h g hl
    simpa [Block.gasLimit] using hg
  · exfalso; revert hf; unfold finPart; split <;> simp

/-- Witness for C8: the second transaction of `blkW` is presented with pool
97 = 100 - 3, the limit minus the gas the first transaction consumed. -/
theorem prefetch_single_shared_gas_pool_witness :
    Event.execute 1 42 97 ∈ (Prefetch pW blkW toMsgW execOkW none).1 ∧
    97 = blkW.header.gasLimit - sumUsed toMsgW execOkW 0 blkW.transactions 1 :=
  ⟨by decide,
   prefetch_single_shared_gas_pool pW blkW toMsgW execOkW none 1 42 97
     (by decide)⟩

/-- C9: the behaviour of the active `Prefetch` body is identical for every
value of the cancellation-signal argument — nil, constantly false,
constantly true, or set at any point mid-run — because the flag is never
read: same trace of hook calls, context bindings and engine presentations,
and same terminal state. -/
theorem prefetch_oblivious_to_interrupt_flag (p : StatePrefetcher)
    (block : Block) (toMsg : Tx → Option Message)
    (exec : Nat → Message → Option Nat)
    (i1 i2 : Option (Nat → Bool)) :
    Prefetch p block toMsg exec i1 = Prefetch p block toMsg exec i2 := rfl

/-- C4: if the run reaches transaction `k` and sender resolution fails there,
the run aborts at once: every context binding and engine presentation in the
whole trace has index below `k`, the last action is the abort hook, and no
root-warming step is attempted. -/
theorem prefetch_sender_resolution_failure_aborts (p : StatePrefetcher)
    (block : Block) (toMsg : Tx → Option Message)
    (exec : Nat → Message → Option Nat) (interrupt : Option (Nat → Bool))
    (k : Nat)
    (hreach : ∀ j, j < k → stepOk toMsg exec 0 block.transactions j = true)
    (hfail : resolveFailAt toMsg block.transactions k = true) :
    (Prefetch p block toMsg exec interrupt).2 = false ∧
    (Prefetch p block toMsg exec interrupt).1.getLast? =
      some (Event.delTxFile block.header.number) ∧
    (∀ e ∈ (Prefetch p block toMsg exec interrupt).1,
      idxBelow k e = true) ∧
    List.count Event.intermediateRoot
      (Prefetch p block toMsg exec interrupt).1 = 0 ∧
    List.count Event.finalRoot
      (Prefetch p block toMsg exec interrupt).1 = 0 := by
  obtain ⟨A, hA, hbound, hok⟩ :=
    loop_resolveFail block.header.number toMsg exec k block.transactions 0
      block.gasLimit hreach hfail
  simp only [Nat.zero_add] at hbound
  refine ⟨hok, ?_, ?_, ?_, ?_⟩
  · rw [Prefetch_fst, hA, hok, finPart_false, List.append_nil,
      show daoPart p.config block ++ initPart block ++
          (A ++ [Event.delTxFile block.header.number]) =
        (daoPart p.config block ++ initPart block ++ A) ++
          [Event.delTxFile block.header.number] by simp,
      getLast_concat]
  · intro e he
    rw [Prefetch_fst, hA, hok, finPart_false, List.append_nil] at he
    simp only [List.mem_append] at he
    rcases he with (hd | hi) | hl
    · rw [daoPart_mem p.config block e hd]; rfl
    · rw [initPart_mem block e hi]; rfl
    · rcases hl with hl | hl
      · exact hbound e hl
      · rw [List.mem_singleton.mp hl]; rfl
  · exact Prefetch_count_zero p block toMsg exec interrupt
      Event.intermediateRoot rfl (fun h => Event.noConfusion h)
      (fun _ h => Event.noConfusion h) (fun _ h => Event.noConfusion h)
  · exact Prefetch_count_zero p block toMsg exec interrupt
      Event.finalRoot rfl (fun h => Event.noConfusion h)
      (fun _ h => Event.noConfusion h) (fun _ h => Event.noConfusion h)

/-- Witness for C4: the second transaction of `blkW` fails sender resolution
under `toMsgFailW` and the run takes the abort exit. -/
theorem prefetch_sender_resolution_failure_witness :
    resolveFailAt toMsgFailW blkW.transactions 1 = true ∧
    (Prefetch pW blkW toMsgFailW execOkW none).2 = false :=
  ⟨by decide,
   (prefetch_sender_resolution_failure_aborts pW blkW toMsgFailW execOkW none
      1 (by decide) (by decide)).1⟩

/-- C5: if the run reaches transaction `k`, its sender resolves, and the
Execution Engine reports an error there, the whole run aborts: no
presentation or binding carries an index beyond `k`, the completion hook
never fires, and the trace ends with the abort hook. -/
theorem prefetch_execution_error_aborts (p : StatePrefetcher) (block : Block)
    (toMsg : Tx → Option Message) (exec : Nat → Message → Option Nat)
    (interrupt : Option (Nat → Bool)) (k : Nat) (tx : Tx) (m : Message)
    (hreach : ∀ j, j < k → stepOk toMsg exec 0 block.transactions j = true)
    (hget : block.transactions.get? k = some tx)
    (hm : toMsg tx = some m)
    (he : exec k m = none) :
    (Prefetch p block toMsg exec interrupt).2 = false ∧
    (∀ e ∈ (Prefetch p block toMsg exec interrupt).1,
      idxBelow (k + 1) e = true) ∧
    List.count (Event.reNameTxFile block.header.number)
      (Prefetch p block toMsg exec interrupt).1 = 0 ∧
    (Prefetch p block toMsg exec interrupt).1.getLast? =
      some (Event.delTxFile block.header.number) := by
  have he' : exec (0 + k) m = none := by rwa [Nat.zero_add]
  obtain ⟨A, hA, hbound, hok⟩ :=
    loop_execFail block.header.number toMsg exec k block.transactions 0
      block.gasLimit tx m hreach hget hm he'
  simp only [Nat.zero_add] at hA hbound
  refine ⟨hok, ?_, ?_, ?_⟩
  · intro e he2
    rw [Prefetch_fst, hA, hok, finPart_false, List.append_nil] at he2
    simp only [List.mem_append] at he2
    rcases he2 with (hd | hi) | hl
    · rw [daoPart_mem p.config block e hd]; rfl
    · rw [initPart_mem block e hi]; rfl
    · rcases hl with hl | hl
      · exact idxBelow_mono k (k + 1) e (Nat.le_succ k) (hbound e hl)
      · simp only [List.mem_cons, List.not_mem_nil, or_false] at hl
        rcases hl with h | h | h | h <;> subst h <;>
          simp [idxBelow]
  · rw [Prefetch_fst]
    simp only [List.count_append]
    rw [daoPart_count_ne _ _ _ (fun h => Event.noConfusion h),
      initPart_count_ne _ _ (fun _ h => Event.noConfusion h),
      List.count_eq_zero.mpr
        (loop_not_mem block.header.number toMsg exec block.transactions 0
          block.gasLimit (Event.reNameTxFile block.header.number) rfl),
      hok, finPart_false]
    rfl
  · rw [Prefetch_fst, hA, hok, finPart_false, List.append_nil,
      show daoPart p.config block ++ initPart block ++
          (A ++ [Event.setTxContext tx.hash k,
            Event.writeHash block.header.number tx.hash,
            Event.execute k tx.hash
              (block.gasLimit - sumUsed toMsg exec 0 block.transactions k),
            Event.delTxFile block.header.number]) =
        (daoPart p.config block ++ initPart block ++
          (A ++ [Event.setTxContext tx.hash k,
            Event.writeHash block.header.number tx.hash,
            Event.execute k tx.hash
              (block.gasLimit - sumUsed toMsg exec 0 block.transactions k)])) ++
          [Event.delTxFile block.header.number] by simp,
      getLast_concat]

/-- Witness for C5: executing the second transaction of `blkW` fails under
`execFailW` and the run takes the abort exit. -/
theorem prefetch_execution_error_witness :
    execFailW 1 ⟨42⟩ = none ∧
    (Prefetch pW blkW toMsgW execFailW none).2 = false :=
  ⟨by decide,
   (prefetch_execution_error_aborts pW blkW toMsgW execFailW none 1 txB ⟨42⟩
      (by decide) (by decide) (by decide) (by decide)).1⟩

lemma prefetch_count_init (p : StatePrefetcher) (block : Block)
    (toMsg : Tx → Option Message) (exec : Nat → Message → Option Nat)
    (interrupt : Option (Nat → Bool)) :
    List.count (Event.initTxFile block.header.number)
        (Prefetch p block toMsg exec interrupt).1 =
      if block.transactions.isEmpty then 0 else 1 := by
  rw [Prefetch_fst]
  simp only [List.count_append]
  rw [daoPart_count_ne _ _ _ (fun h => Event.noConfusion h),
    finPart_count_ne _ _ _ (fun _ h => Event.noConfusion h),
    List.count_eq_zero.mpr
      (loop_not_mem block.header.number toMsg exec block.transactions 0
        block.gasLimit (Event.initTxFile block.header.number) rfl)]
  cases hemp : block.transactions.isEmpty <;> simp [initPart, hemp]

lemma prefetch_count_reName (p : StatePrefetcher) (block : Block)
    (toMsg : Tx → Option Message) (exec : Nat → Message → Option Nat)
    (interrupt : Option (Nat → Bool)) :
    List.count (Event.reNameTxFile block.header.number)
        (Prefetch p block toMsg exec interrupt).1 =
      if (Prefetch p block toMsg exec interrupt).2 &&
          !block.transactions.isEmpty then 1 else 0 := by
  rw [Prefetch_fst, Prefetch_snd]
  simp only [List.count_append]
  rw [daoPart_count_ne _ _ _ (fun h => Event.noConfusion h),
    initPart_count_ne _ _ (fun _ h => Event.noConfusion h),
    List.count_eq_zero.mpr
      (loop_not_mem block.header.number toMsg exec block.transactions 0
        block.gasLimit (Event.reNameTxFile block.header.number) rfl)]
  cases hok : (prefetchLoop block.header.number toMsg exec
      block.transactions 0 block.gasLimit).2 <;>
    cases hemp : block.transactions.isEmpty <;>
      simp [finPart, hok, hemp]

lemma prefetch_count_del (p : StatePrefetcher) (block : Block)
    (toMsg : Tx → Option Message) (exec : Nat → Message → Option Nat)
    (interrupt : Option (Nat → Bool)) :
    List.count (Event.delTxFile block.header.number)
        (Prefetch p block toMsg exec interrupt).1 =
      if (Prefetch p block toMsg exec interrupt).2 then 0 else 1 := by
  rw [Prefetch_fst, Prefetch_snd]
  simp only [List.count_append]
  rw [daoPart_count_ne _ _ _ (fun h => Event.noConfusion h),
    initPart_count_ne _ _ (fun _ h => Event.noConfusion h),
    finPart_count_ne _ _ _ (fun _ h => Event.noConfusion h),
    loop_del_count block.header.number toMsg exec block.transactions 0
      block.gasLimit block.header.number]
  cases hok : (prefetchLoop block.header.number toMsg exec
      block.transactions 0 block.gasLimit).2 <;> simp [hok]

lemma prefetch_empty_complete (p : StatePrefetcher) (block : Block)
    (toMsg : Tx → Option Message) (exec : Nat → Message → Option Nat)
    (interrupt : Option (Nat → Bool))
    (hemp : block.transactions.isEmpty = true) :
    (Prefetch p block toMsg exec interrupt).2 = true := by
  rw [Prefetch_snd, List.isEmpty_iff.mp hemp]
  rfl

/-- C7: on every exit path, the begin-run hook count for the block's number
equals the sum of the end-run and abort-run hook counts (each at most one
begin per run), and no begin/end/abort hook ever fires for a different block
number. -/
theorem prefetch_hook_begin_end_pairing (p : StatePrefetcher) (block : Block)
    (toMsg : Tx → Option Message) (exec : Nat → Message → Option Nat)
    (interrupt : Option (Nat → Bool)) :
    List.count (Event.initTxFile block.header.number)
        (Prefetch p block toMsg exec interrupt).1 =
      List.count (Event.reNameTxFile block.header.number)
          (Prefetch p block toMsg exec interrupt).1 +
        List.count (Event.delTxFile block.header.number)
          (Prefetch p block toMsg exec interrupt).1 ∧
    List.count (Event.initTxFile block.header.number)
        (Prefetch p block toMsg exec interrupt).1 ≤ 1 ∧
    (∀ m, (Event.initTxFile m ∈ (Prefetch p block toMsg exec interrupt).1 ∨
           Event.reNameTxFile m ∈ (Prefetch p block toMsg exec interrupt).1 ∨
           Event.delTxFile m ∈ (Prefetch p block toMsg exec interrupt).1) →
      m = block.header.number) := by
  refine ⟨?_, ?_, ?_⟩
  · rw [prefetch_count_init p block toMsg exec interrupt,
      prefetch_count_reName p block toMsg exec interrupt,
      prefetch_count_del p block toMsg exec interrupt]
    cases hemp : block.transactions.isEmpty
    · cases hok : (Prefetch p block toMsg exec interrupt).2 <;> simp
    · rw [prefetch_empty_complete p block toMsg exec interrupt hemp]
      simp
  · rw [prefetch_count_init p block toMsg exec interrupt]
    cases hemp : block.transactions.isEmpty <;> simp
  · intro m hm
    have hdel : ∀ m', m' ≠ block.header.number →
        Event.delTxFile m' ∉ (prefetchLoop block.header.number toMsg exec
          block.transactions 0 block.gasLimit).1 := by
      intro m' hne
      apply List.count_eq_zero.mp
      rw [loop_del_count block.header.number toMsg exec block.transactions 0
        block.gasLimit m']
      rw [if_neg]
      intro hc
      exact hne hc.2
    rcases hm with hm | hm | hm <;>
      (rw [Prefetch_fst] at hm
       simp only [List.mem_append] at hm
       rcases hm with ((hd | hi) | hl) | hf)
    · exact absurd (daoPart_mem _ _ _ hd) (fun h => Event.noConfusion h)
    · have := initPart_mem _ _ hi
      simp only [Event.initTxFile.injEq] at this
      exact this
    · exact absurd (loop_events_mem block.header.number toMsg exec
        block.transactions 0 block.gasLimit _ hl)
        (by simp [loopEvent])
    · exact absurd (finPart_mem _ _ _ hf) (fun h => Event.noConfusion h)
    · exact absurd (daoPart_mem _ _ _ hd) (fun h => Event.noConfusion h)
    · exact absurd (initPart_mem _ _ hi) (fun h => Event.noConfusion h)
    · exact absurd (loop_events_mem block.header.number toMsg exec
        block.transactions 0 block.gasLimit _ hl)
        (by simp [loopEvent])
    · have := finPart_mem _ _ _ hf
      simp only [Event.reNameTxFile.injEq] at this
      exact this
    · exact absurd (daoPart_mem _ _ _ hd) (fun h => Event.noConfusion h)
    · exact absurd (initPart_mem _ _ hi) (fun h => Event.noConfusion h)
    · by_contra hne
      exact hdel m hne hl
    · exact absurd (finPart_mem _ _ _ hf) (fun h => Event.noConfusion h)

/-- Witness for C7 on an aborting run: the begin-run hook is matched by the
abort-run hook. -/
theorem prefetch_hook_pairing_witness :
    List.count (Event.initTxFile 9)
        (Prefetch pW blkW toMsgW execFailW none).1 =
      List.count (Event.reNameTxFile 9)
          (Prefetch pW blkW toMsgW execFailW none).1 +
        List.count (Event.delTxFile 9)
          (Prefetch pW blkW toMsgW execFailW none).1 :=
  (prefetch_hook_begin_end_pairing pW blkW toMsgW execFailW none).1

/-- C10: when the run reaches transaction `k` and its sender resolves, the
record-transaction hook fires immediately before the engine presentation,
and immediately after it exactly when execution succeeds; on execution
failure the presentation is followed by the abort hook, which ends the
trace, so the hook fired only once (before). -/
theorem prefetch_write_hash_brackets_execution (p : StatePrefetcher)
    (block : Block) (toMsg : Tx → Option Message)
    (exec : Nat → Message → Option Nat) (interrupt : Option (Nat → Bool))
    (k : Nat) (tx : Tx) (m : Message)
    (hreach : ∀ j, j < k → stepOk toMsg exec 0 block.transactions j = true)
    (hget : block.transactions.get? k = some tx)
    (hm : toMsg tx = some m) :
    ((exec k m).isSome = true →
      List.IsInfix
        [Event.setTxContext tx.hash k,
         Event.writeHash block.header.number tx.hash,
         Event.execute k tx.hash
           (block.header.gasLimit -
             sumUsed toMsg exec 0 block.transactions k),
         Event.writeHash block.header.number tx.hash]
        (Prefetch p block toMsg exec interrupt).1) ∧
    (exec k m = none →
      List.IsSuffix
        [Event.setTxContext tx.hash k,
         Event.writeHash block.header.number tx.hash,
         Event.execute k tx.hash
           (block.header.gasLimit -
             sumUsed toMsg exec 0 block.transactions k),
         Event.delTxFile block.header.number]
        (Prefetch p block toMsg exec interrupt).1) := by
  constructor
  · intro hsome
    obtain ⟨u, hu⟩ := Option.isSome_iff_exists.mp hsome
    have hu' : exec (0 + k) m = some u := by rwa [Nat.zero_add]
    obtain ⟨A, B, hA, -⟩ :=
      loop_succChunk block.header.number toMsg exec k block.transactions 0
        block.gasLimit tx m u hreach hget hm hu'
    simp only [Nat.zero_add] at hA
    rw [Prefetch_fst, hA]
    refine ⟨daoPart p.config block ++ initPart block ++ A,
      B ++ finPart block
        (prefetchLoop block.header.number toMsg exec block.transactions 0
          block.gasLimit).2, ?_⟩
    simp [Block.gasLimit, List.append_assoc]
  · intro hnone
    have he' : exec (0 + k) m = none := by rwa [Nat.zero_add]
    obtain ⟨A, hA, -, hok⟩ :=
      loop_execFail block.header.number toMsg exec k block.transactions 0
        block.gasLimit tx m hreach hget hm he'
    simp only [Nat.zero_add] at hA
    rw [Prefetch_fst, hA, hok, finPart_false, List.append_nil]
    refine ⟨daoPart p.config block ++ initPart block ++ A, ?_⟩
    simp [Block.gasLimit, List.append_assoc]

/-- Witness for C10: the first transaction of `blkW` executes successfully
and its engine presentation is bracketed by two record-transaction hooks. -/
theorem prefetch_write_hash_brackets_witness :
    toMsgW txA = some ⟨41⟩ ∧
    List.IsInfix
      [Event.setTxContext 41 0, Event.writeHash 9 41,
       Event.execute 0 41 100, Event.writeHash 9 41]
      (Prefetch pW blkW toMsgW execOkW none).1 :=
  ⟨rfl,
   (prefetch_write_hash_brackets_execution pW blkW toMsgW execOkW none 0 txA
      ⟨41⟩ (by decide) (by decide) rfl).1 rfl⟩

end Pioneer

